import Mathlib

/-!
Verification of the getmovify-nextjs scraping engine.

This file shallowly embeds the pure core of the repository's TypeScript
sources in Lean 4 and proves the specification's claims about it.

Conventions used throughout the embedding:
* JavaScript strings are Lean `String`s; character-level regex behaviour is
  modelled over `String.data` (`List Char`).
* `undefined`/absent optional values are `Option.none`; a JS function that can
  return either a string or `undefined` returns `Option String` (`some ""` is
  the JS empty string, which is distinct from `undefined`).
* Rejected promises / thrown exceptions are `Except` errors.
* Platform primitives with no TypeScript source in the repository (the WHATWG
  `URL` constructor, the network, cheerio HTML parsing) are passed in as
  explicit parameters/oracles; everything written in the repository itself is
  translated directly.
-/

/-! ## Character and string helpers (src/utils/scraper.ts)

`sanitizeText` applies `replace(/^.*>\s*/, "")`, then `replace(/\s+/g, " ")`,
then `trim()`.  JS `\s` is modelled by its ASCII subset, and JS `.` (which
does not match line terminators) stops at `\n`/`\r`.
-/

/-- ASCII subset of the JS regex class `\s`. -/
def jsWs (c : Char) : Bool :=
  c = ' ' || c = '\t' || c = '\n' || c = '\r' || c = '\x0b' || c = '\x0c'

/-- Drop leading and trailing JS whitespace (JS `String.prototype.trim`). -/
def trimJs (cs : List Char) : List Char :=
  ((cs.dropWhile jsWs).reverse.dropWhile jsWs).reverse

/-- JS `toLowerCase()` on the ASCII strings used here (character-wise, so it
reduces definitionally, unlike `String.toLower`). -/
def toLowerJs (s : String) : String := String.mk (s.data.map Char.toLower)

/-- JS `toUpperCase()` on the ASCII strings used here. -/
def toUpperJs (s : String) : String := String.mk (s.data.map Char.toUpper)

/-- JS `startsWith` (character-wise). -/
def strStartsWith (s p : String) : Bool := p.data.isPrefixOf s.data

/-- `replace(/^.*>\s*/, "")`: if the first line contains `>`, remove
everything up to and including the last `>` of the first line together with
the whitespace that follows it. -/
def dropArrow (cs : List Char) : List Char :=
  let fl := cs.takeWhile (fun c => c ≠ '\n' && c ≠ '\r')
  let rest := cs.drop fl.length
  match fl.reverse.findIdx? (fun c => c = '>') with
  | none => cs
  | some i => (((fl.reverse.take i).reverse) ++ rest).dropWhile jsWs

/-- `replace(/\s+/g, " ")`: collapse every whitespace run into one space.
The boolean records whether the previous character was whitespace. -/
def collapseWsGo : Bool → List Char → List Char
  | _, [] => []
  | prev, c :: rest =>
    if jsWs c then
      if prev then collapseWsGo true rest else ' ' :: collapseWsGo true rest
    else c :: collapseWsGo false rest

/-- `sanitizeText` from src/utils/scraper.ts. -/
def sanitizeText (s : String) : String :=
  String.mk (trimJs (collapseWsGo false (dropArrow s.data)))

/-! ## Regex alternation search

Both quality regexes are plain alternations of literals with the `i` flag.
JS picks the leftmost position with a match and, at that position, the first
alternative (in source order) that matches. -/

/-- Case-insensitive character comparison (ASCII, matching the `i` flag on
the ASCII tokens used here). -/
def lowerEq (a b : Char) : Bool := a.toLower == b.toLower

/-- Does the pattern match at the head of the text (case-insensitively)? -/
def ciLeads : List Char → List Char → Bool
  | [], _ => true
  | _ :: _, [] => false
  | p :: ps, c :: cs => lowerEq p c && ciLeads ps cs

/-- First alternative (in order) matching at this position. -/
def firstAltAt (alts : List String) (cs : List Char) : Option String :=
  alts.find? (fun t => ciLeads t.data cs)

/-- Leftmost match of an alternation: try each position left to right. -/
def scanAlts (alts : List String) : List Char → Option String
  | [] => firstAltAt alts []
  | c :: rest =>
    match firstAltAt alts (c :: rest) with
    | some t => some t
    | none => scanAlts alts rest

/-- Alternatives of `/(4K|2160p|1440p|1080p|720p|480p|360p)/i`. -/
def resolutionAlts : List String :=
  ["4K", "2160p", "1440p", "1080p", "720p", "480p", "360p"]

/-- Alternatives of `/(BluRay|WEBRip|HDRip|HDTV|DVDRip|HD|SD|Low Quality|)/i`
from src/utils/scraper.ts.  Note the trailing empty alternative, which
matches the empty string at any position. -/
def formatAltsMain : List String :=
  ["BluRay", "WEBRip", "HDRip", "HDTV", "DVDRip", "HD", "SD", "Low Quality", ""]

/-- Alternatives of `/(BluRay|WEBRip|HDRip|HDTV|DVDRip|HD|SD)/i` from the
copy of the module in src/unnamed/part_006. -/
def formatAltsPart006 : List String :=
  ["BluRay", "WEBRip", "HDRip", "HDTV", "DVDRip", "HD", "SD"]

/-- `extractQualityFromText` from src/utils/scraper.ts (lines 220–236):
resolution tokens first, then the format alternation with its trailing empty
alternative, result upper-cased. -/
def extractQualityFromText (text : String) : Option String :=
  match scanAlts resolutionAlts text.data with
  | some m => some (toUpperJs m)
  | none =>
    match scanAlts formatAltsMain text.data with
    | some m => some (toUpperJs m)
    | none => none

/-- `extractQualityFromText` as written in src/unnamed/part_006
(lines 252–266): identical except the format regex has no trailing empty
alternative. -/
def extractQualityFromTextPart006 (text : String) : Option String :=
  match scanAlts resolutionAlts text.data with
  | some m => some (toUpperJs m)
  | none =>
    match scanAlts formatAltsPart006 text.data with
    | some m => some (toUpperJs m)
    | none => none

/-! ## Data model (src/types/movie.ts) -/

/-- `DownloadLink` — `{label, url}`. -/
structure DownloadLink where
  label : String
  url : String
deriving DecidableEq, Repr

/-- `Movie` record; fields that the TypeScript interface marks optional are
`Option`s. -/
structure Movie where
  title : String
  link : String
  thumbnail : Option String := none
  quality : Option String := none
  size : Option String := none
  genre : Option (List String) := none
  language : Option String := none
  format : Option String := none
  releaseDate : Option String := none
  stars : Option String := none
  story : Option String := none
  downloadLinks : Option (List DownloadLink) := none
  images : Option (List String) := none
deriving DecidableEq, Repr

/-- `SCRAPER_CONFIG` from src/utils/scraper.ts (the `userAgents` pool is
omitted: it only feeds the randomized `User-Agent` header). -/
structure ScraperConfig where
  timeout : Nat
  maxRetries : Nat
  retryDelay : Nat
  maxConcurrent : Nat

def SCRAPER_CONFIG : ScraperConfig :=
  { timeout := 15000, maxRetries := 3, retryDelay := 1000, maxConcurrent := 100 }

/-! ## Deduplication (src/utils/scraper.ts, `dedupeMoviesByTitleHighestQuality`) -/

/-- The dedupe key: title substring before the first `(` (whole title when
there is none), trimmed and lower-cased. -/
def getBaseTitle (title : String) : String :=
  toLowerJs (String.mk (trimJs (title.data.takeWhile (fun c => c ≠ '('))))

/-- The fixed best-to-worst quality order used by the dedupe. -/
def qualityOrder : List String :=
  ["4K", "2160P", "1440P", "1080P", "720P", "480P", "360P",
   "BLURAY", "WEBRIP", "HDRIP", "HDTV", "DVDRIP", "HD", "SD"]

/-- `getQualityRank`: falsy quality (absent or empty) ranks 100, a token not
in the list ranks 99, otherwise its index. -/
def getQualityRank (quality : Option String) : Nat :=
  match quality with
  | none => 100
  | some q =>
    if q = "" then 100
    else
      match qualityOrder.indexOf? (toUpperJs q) with
      | some i => i
      | none => 99

/-- The in-place `map.set` of the dedupe loop's `else` branch: the entry
whose key is `base` is replaced by `movie` exactly when `movie` ranks
strictly better. -/
def dedupeUpdate (base : String) (movie : Movie) (e : String × Movie) :
    String × Movie :=
  if e.1 == base then
    if getQualityRank movie.quality < getQualityRank e.2.quality then
      (e.1, movie)
    else e
  else e

/-- One step of the dedupe loop.  The JS `Map` is an insertion-ordered
association list; `map.set` on an existing key updates the value in place
(`dedupeUpdate`), and `map.set` on a fresh key appends. -/
def dedupeStep (entries : List (String × Movie)) (movie : Movie) :
    List (String × Movie) :=
  let base := getBaseTitle movie.title
  if entries.any (fun e => e.1 == base) then
    entries.map (dedupeUpdate base movie)
  else entries ++ [(base, movie)]

/-- `dedupeMoviesByTitleHighestQuality` from src/utils/scraper.ts
(lines 405–449): fold the movie list through the map, then return the
map's values in insertion order. -/
def dedupeMoviesByTitleHighestQuality (movies : List Movie) : List Movie :=
  (movies.foldl dedupeStep []).map Prod.snd

/-! ## Error taxonomy and retry policy (src/utils/scraper.ts) -/

/-- The JS error values that flow through the scraper: `ValidationError`,
`ScrapingError{statusCode, originalError}`, raw `AxiosError`s (recognized by
`error.code` / `error.response?.status`), and anything else. -/
inductive JsError where
  | validation (message : String) : JsError
  | scraping (message : String) (statusCode : Nat) (cause : Option JsError) : JsError
  | axios (message : String) (code : Option String) (status : Option Nat) : JsError
  | generic (message : String) : JsError

/-- `error.message`. -/
def JsError.message : JsError → String
  | .validation m => m
  | .scraping m _ _ => m
  | .axios m _ _ => m
  | .generic m => m

/-- The response interceptor installed by `createHttpClient`
(src/utils/scraper.ts lines 97–122): classify an axios failure, passing the
original error along as the `ScrapingError`'s cause; anything unrecognized is
rethrown unchanged. -/
def interceptError (e : JsError) : JsError :=
  match e with
  | .axios _ code status =>
    if code == some "ECONNABORTED" then
      .scraping "Request timeout - server took too long to respond" 408 (some e)
    else if status == some 403 then
      .scraping "Access forbidden - possible rate limiting or blocking" 403 (some e)
    else if status == some 404 then
      .scraping "Resource not found" 404 (some e)
    else
      match status with
      | some s => if 500 ≤ s then .scraping "Server error" s (some e) else e
      | none => e
  | _ => e

/-- The `withRetry` guard: `ValidationError`, and `ScrapingError` with a 4xx
status, are never retried. -/
def isNonRetryable : JsError → Bool
  | .validation _ => true
  | .scraping _ s _ => 400 ≤ s && s < 500
  | _ => false

/-- Message of the terminal wrapper error built after the retry cap. -/
def retryFailMessage (maxRetries : Nat) (lastError : JsError) : String :=
  let n := maxRetries + 1
  let m := lastError.message
  s!"Operation failed after {n} attempts: {m}"

/-- The retry loop of `withRetry` (src/utils/scraper.ts lines 128–170).
`op` gives the operation's outcome on each attempt (attempts are numbered
from 0); `remaining` counts how many further attempts the loop may start.
The second component of the result counts the attempts actually performed.
Backoff delays only suspend; they do not change outcomes. -/
def runRetryFrom {α : Type} (op : Nat → Except JsError α) (maxRetries : Nat)
    (attempt : Nat) (remaining : Nat) : (Except JsError α) × Nat :=
  match op attempt with
  | .ok v => (.ok v, 1)
  | .error e =>
    if isNonRetryable e then (.error e, 1)
    else
      match remaining with
      | 0 => (.error (.scraping (retryFailMessage maxRetries e) 500 (some e)), 1)
      | r + 1 =>
        let out := runRetryFrom op maxRetries (attempt + 1) r
        (out.1, out.2 + 1)

/-- `withRetry(operation, maxRetries)`: run from attempt 0 with `maxRetries`
further attempts allowed. -/
def withRetry {α : Type} (op : Nat → Except JsError α) (maxRetries : Nat) :
    (Except JsError α) × Nat :=
  runRetryFrom op maxRetries 0 maxRetries

/-- The `{status, code, message}` triple produced by `createErrorResponse`
(src/utils/scraper.ts lines 173–213). -/
structure ErrorResponse where
  status : Nat
  code : String
  message : String
deriving DecidableEq, Repr

/-- `createErrorResponse`. -/
def createErrorResponse : JsError → ErrorResponse
  | .validation m => { status := 400, code := "VALIDATION_ERROR", message := m }
  | .scraping m s _ => { status := s, code := "SCRAPING_ERROR", message := m }
  | _ => { status := 500, code := "INTERNAL_ERROR",
           message := "An unexpected error occurred" }

/-! ## Concurrency-bounded batch processor
(src/utils/scraper.ts, `processMoviesWithConcurrency`, lines 355–400)

The stagger (`sleep(100 * index)`) and inter-batch pause (`sleep(500)`) only
delay work; `Promise.allSettled` returns settlement results in input order
and only fulfilled values are pushed, so the value of the function is fully
determined by each item's outcome, modelled as `Except`. -/

/-- The batches `items.slice(i, i + size)` for `i = 0, size, 2·size, …`
(faithful to the loop for `size ≥ 1`; the JS loop does not terminate when
`size = 0` and `items` is non-empty). -/
def chunksOf {α : Type} (size : Nat) : List α → List (List α)
  | [] => []
  | x :: xs => ((x :: xs).take size) :: chunksOf size (xs.drop (size - 1))
termination_by l => l.length
decreasing_by
  simp only [List.length_drop, List.length_cons]
  omega

/-- One batch: apply the processor with global indices starting at `start`,
keeping fulfilled results in order. -/
def settleBatch {α β ε : Type} (processor : α → Nat → Except ε β) (start : Nat) :
    List α → List β
  | [] => []
  | x :: xs =>
    match processor x start with
    | .ok v => v :: settleBatch processor (start + 1) xs
    | .error _ => settleBatch processor (start + 1) xs

/-- Sequential batches, threading the global index. -/
def runBatches {α β ε : Type} (processor : α → Nat → Except ε β) :
    Nat → List (List α) → List β
  | _, [] => []
  | i, b :: bs => settleBatch processor i b ++ runBatches processor (i + b.length) bs

/-- `processMoviesWithConcurrency(items, processor, concurrencyLimit)`. -/
def processMoviesWithConcurrency {α β ε : Type} (items : List α)
    (processor : α → Nat → Except ε β) (concurrencyLimit : Nat) : List β :=
  let actualLimit := min concurrencyLimit items.length
  runBatches processor 0 (chunksOf actualLimit items)

/-! ## SkyBap download-link extraction
(src/utils/skybap.ts, `extractDownloadLinks`, lines 441–498)

Anchors are what cheerio's selectors return: an optional `href` attribute and
the anchor text.  The WHATWG `URL` constructor behind `validateUrl` is a
platform primitive, passed in as a predicate. -/

structure Anchor where
  href : Option String
  text : String
deriving DecidableEq, Repr

/-- `parseDownloadLink` (src/utils/scraper.ts lines 257–289).  Returns the
parsed link (or `none` when the anchor is skipped) together with the updated
`processedUrls` set; note the JS code adds the href to the set before the
URL-validity check, so an invalid href is still marked processed. -/
def parseDownloadLink (validateUrl : String → Bool) (a : Anchor)
    (processed : List String) : Option DownloadLink × List String :=
  match a.href with
  | none => (none, processed)
  | some href =>
    let text := sanitizeText a.text
    if href = "" || text = "" then (none, processed)
    else if processed.contains href then (none, processed)
    else
      let processed1 := href :: processed
      if !validateUrl href && !strStartsWith href "/" then (none, processed1)
      else (some { label := text, url := href }, processed1)

/-- Fold `parseDownloadLink` over a selector's anchors, collecting parsed
links and threading the `processedUrls` set. -/
def collectLinks (validateUrl : String → Bool) :
    List Anchor → List String → List DownloadLink × List String
  | [], processed => ([], processed)
  | a :: rest, processed =>
    match parseDownloadLink validateUrl a processed with
    | (some link, processed1) =>
      let out := collectLinks validateUrl rest processed1
      (link :: out.1, out.2)
    | (none, processed1) => collectLinks validateUrl rest processed1

/-- The fallback-selector loop: try each selector until one yields at least
one link; the `processedUrls` set persists across selectors. -/
def collectFallbacks (validateUrl : String → Bool) :
    List (List Anchor) → List String → List DownloadLink
  | [], _ => []
  | sel :: rest, processed =>
    let out := collectLinks validateUrl sel processed
    if out.1.isEmpty then collectFallbacks validateUrl rest out.2
    else out.1

/-- The unsorted link list of `extractDownloadLinks`: the primary
`div.Bolly a` anchors, then the fallback selectors if that produced none. -/
def collectDownloadLinks (validateUrl : String → Bool) (primary : List Anchor)
    (fallbacks : List (List Anchor)) : List DownloadLink :=
  let out := collectLinks validateUrl primary []
  if out.1.isEmpty then collectFallbacks validateUrl fallbacks out.2
  else out.1

/-- The quality tokens of the final sort's comparator (case-sensitive
`label.includes(q)`). -/
def linkQualityOrder : List String :=
  ["4K", "2160p", "1440p", "1080p", "720p", "480p", "360p"]

/-- JS `String.prototype.includes` (case-sensitive substring test). -/
def hasTok : List Char → List Char → Bool
  | [], needle => needle.isEmpty
  | c :: rest, needle => needle.isPrefixOf (c :: rest) || hasTok rest needle

/-- The sort key: `findIndex` over the quality tokens, with `-1` (no token)
mapped past the end so unranked links compare after every ranked link,
exactly as the comparator's `-1` cases do. -/
def linkRank (l : DownloadLink) : Nat :=
  match linkQualityOrder.findIdx? (fun q => hasTok l.label.data q.data) with
  | some i => i
  | none => linkQualityOrder.length

/-- Stable insertion by `linkRank`. -/
def insertByRank (x : DownloadLink) : List DownloadLink → List DownloadLink
  | [] => [x]
  | y :: ys => if linkRank x ≤ linkRank y then x :: y :: ys else y :: insertByRank x ys

/-- The final `downloadLinks.sort(comparator)`.  `Array.prototype.sort` is
stable and the comparator is induced by the `linkRank` key, so the result is
the unique stable reordering by that key, computed here by a stable
insertion sort. -/
def sortLinksByQuality : List DownloadLink → List DownloadLink
  | [] => []
  | x :: xs => insertByRank x (sortLinksByQuality xs)

/-- `extractDownloadLinks` from src/utils/skybap.ts: collect, then sort. -/
def extractDownloadLinks (validateUrl : String → Bool) (primary : List Anchor)
    (fallbacks : List (List Anchor)) : List DownloadLink :=
  sortLinksByQuality (collectDownloadLinks validateUrl primary fallbacks)

/-! ## 9xmovie download-link extraction
(src/utils/nineXMovieScraper.ts, `parseDownloadLinks`, lines 244–299) -/

/-- One `.description.tCenter` div: its text, and (for link divs) the
`a.dwnLink` href attribute and text. -/
structure TCenterDiv where
  text : String
  dwnHref : Option String
  dwnText : String
deriving DecidableEq, Repr

/-- `linkText.match(/\[(.*?)\])/`-style capture: at the first `[` that is
followed by a `]`, capture lazily up to that next `]`. -/
def extractBracketGo : List Char → Option String
  | [] => none
  | '[' :: rest =>
    if rest.contains ']' then some (String.mk (rest.takeWhile (fun c => c ≠ ']')))
    else none
  | _ :: rest => extractBracketGo rest

/-- One global pass of `replace(/\s+\(/g, "(")` on a string whose whitespace
runs were already collapsed to single spaces. -/
def rmSpaceBeforeParen : List Char → List Char
  | ' ' :: '(' :: rest => '(' :: rmSpaceBeforeParen rest
  | c :: rest => c :: rmSpaceBeforeParen rest
  | [] => []

/-- One global pass of `replace(/\(\s+/g, "(")` under the same assumption. -/
def rmSpaceAfterParen : List Char → List Char
  | '(' :: ' ' :: rest => '(' :: rmSpaceAfterParen rest
  | c :: rest => c :: rmSpaceAfterParen rest
  | [] => []

/-- The label normalization of `parseDownloadLinks`: collapse whitespace,
remove spaces adjacent to `(`, trim. -/
def normalizeLabel (s : String) : String :=
  String.mk (trimJs (rmSpaceAfterParen (rmSpaceBeforeParen (collapseWsGo false s.data))))

/-- `labelCounts.set(k, v)` on the insertion-ordered map. -/
def setCount (counts : List (String × Nat)) (k : String) (v : Nat) :
    List (String × Nat) :=
  if counts.any (fun e => e.1 == k) then
    counts.map (fun e => if e.1 == k then (e.1, v) else e)
  else counts ++ [(k, v)]

/-- The pair loop of `parseDownloadLinks`: divs are consumed two at a time
(label div, link div); a repeated normalized label gets a `" Backup"`
suffix.  Nothing deduplicates the `url` field. -/
def parse9xLoop (counts : List (String × Nat)) : List TCenterDiv → List DownloadLink
  | labelDiv :: linkDiv :: rest =>
    let label := sanitizeText labelDiv.text
    let linkText := sanitizeText linkDiv.dwnText
    match linkDiv.dwnHref with
    | some h =>
      if label ≠ "" && h ≠ "" && linkText ≠ "" then
        let size := (extractBracketGo linkText.data).getD ""
        let base0 := if size ≠ "" then label ++ " (" ++ size ++ ")" else label
        let norm := normalizeLabel base0
        match counts.lookup norm with
        | some n =>
          { label := norm ++ " Backup", url := h } ::
            parse9xLoop (setCount counts norm (n + 1)) rest
        | none =>
          { label := norm, url := h } :: parse9xLoop (setCount counts norm 1) rest
      else parse9xLoop counts rest
    | none => parse9xLoop counts rest
  | _ => []

/-- `parseDownloadLinks` from src/utils/nineXMovieScraper.ts: the pair loop
starting from an empty label-count map; the result is returned in document
order, without any quality sort. -/
def parseDownloadLinks9x (divs : List TCenterDiv) : List DownloadLink :=
  parse9xLoop [] divs

/-! ## Detail enrichment (src/utils/skybap.ts lines 209–261 and
src/app/api/movies/route.ts lines 133–170)

`withRetry(() => fetchMovieDetailsSkyBap(...))` / `withRetry(() =>
get9xMovieDetails(...))` perform network and HTML work, so their overall
outcome per link is an oracle parameter.  The per-item `try/catch` returning
the original movie is translated directly. -/

/-- The record returned by `fetchMovieDetailsSkyBap`: `thumbnail` and
`downloadLinks` are always present, the remaining fields only when
extracted. -/
structure SkyDetails where
  thumbnail : String
  downloadLinks : List DownloadLink
  title : Option String := none
  genre : Option (List String) := none
  size : Option String := none
  language : Option String := none
  quality : Option String := none
  format : Option String := none
  releaseDate : Option String := none
  stars : Option String := none
  story : Option String := none
  images : Option (List String) := none
deriving DecidableEq, Repr

/-- JS truthiness of an optional string (absent and `""` are falsy). -/
def truthyStr : Option String → Bool
  | none => false
  | some s => s ≠ ""

/-- The spread merge built in `fetchMovieDetailsWithConcurrencySkyBap`'s
success path: detail fields overlay the listing, except that a quality
already on the listing is kept, and the title is only replaced when truthy
and different. -/
def mergeSkyBapDetails (movie : Movie) (d : SkyDetails) : Movie :=
  { movie with
    thumbnail := some d.thumbnail
    downloadLinks := some d.downloadLinks
    title :=
      match d.title with
      | some t => if t ≠ "" && t ≠ movie.title then t else movie.title
      | none => movie.title
    genre := if d.genre.isSome then d.genre else movie.genre
    size := if truthyStr d.size then d.size else movie.size
    language := if truthyStr d.language then d.language else movie.language
    quality :=
      if truthyStr d.quality && !truthyStr movie.quality then d.quality
      else movie.quality
    format := if truthyStr d.format then d.format else movie.format
    releaseDate := if truthyStr d.releaseDate then d.releaseDate else movie.releaseDate
    stars := if truthyStr d.stars then d.stars else movie.stars
    story := if truthyStr d.story then d.story else movie.story
    images := if d.images.isSome then d.images else movie.images }

/-- `fetchMovieDetailsWithConcurrencySkyBap` (src/utils/skybap.ts): enrich
each listing through the batch processor; a failed detail fetch returns the
movie unchanged, so the processor never rejects. -/
def fetchMovieDetailsWithConcurrencySkyBap (movies : List Movie)
    (detailResult : String → Except JsError SkyDetails) : List Movie :=
  let concurrencyLimit := min SCRAPER_CONFIG.maxConcurrent movies.length
  processMoviesWithConcurrency movies
    (fun movie _ =>
      (Except.ok (match detailResult movie.link with
        | .ok details => mergeSkyBapDetails movie details
        | .error _ => movie) : Except JsError Movie))
    concurrencyLimit

/-- The `{...movie, ...details}` spread of the 9xmovie enrichment: every
field present on the details record overrides the listing field. -/
def merge9xDetails (movie : Movie) (d : Movie) : Movie :=
  { title := d.title
    link := d.link
    thumbnail := if d.thumbnail.isSome then d.thumbnail else movie.thumbnail
    quality := if d.quality.isSome then d.quality else movie.quality
    size := if d.size.isSome then d.size else movie.size
    genre := if d.genre.isSome then d.genre else movie.genre
    language := if d.language.isSome then d.language else movie.language
    format := if d.format.isSome then d.format else movie.format
    releaseDate := if d.releaseDate.isSome then d.releaseDate else movie.releaseDate
    stars := if d.stars.isSome then d.stars else movie.stars
    story := if d.story.isSome then d.story else movie.story
    downloadLinks := if d.downloadLinks.isSome then d.downloadLinks else movie.downloadLinks
    images := if d.images.isSome then d.images else movie.images }

/-- `fetch9xMovieDetailsWithConcurrency` (src/app/api/movies/route.ts):
`get9xMovieDetails` may resolve to `null` (modelled `none`), which also
returns the movie unchanged, as does a thrown error. -/
def fetch9xMovieDetailsWithConcurrency (movies : List Movie)
    (detailResult : String → Except JsError (Option Movie)) : List Movie :=
  let concurrencyLimit := min SCRAPER_CONFIG.maxConcurrent movies.length
  processMoviesWithConcurrency movies
    (fun movie _ =>
      (Except.ok (match detailResult movie.link with
        | .ok (some details) => merge9xDetails movie details
        | .ok none => movie
        | .error _ => movie) : Except JsError Movie))
    concurrencyLimit

/-! ## Route handlers (src/app/api/search/route.ts, src/app/api/movies/route.ts,
src/config/index.ts)

A handler's value is its outcome together with the ordered list of URLs
fetched from the network while computing it.  Everything downstream of
request validation (scraping, enrichment, dedupe, envelope assembly) is
abstracted as a `pipeline` oracle that reports its own fetch trace: the
claims settled here concern only what happens before any fetch. -/

/-- Outcome of a route handler. -/
inductive HandlerOutcome where
  | success (status : Nat) : HandlerOutcome
  | errorEnvelope (status : Nat) (code : String) : HandlerOutcome
  | thrown (e : JsError) : HandlerOutcome

/-- `query.trim().replace(/[<>]/g, "")`. -/
def sanitizeQuery (q : String) : String :=
  String.mk ((trimJs q.data).filter (fun c => c ≠ '<' && c ≠ '>'))

/-- `GET` of src/app/api/search/route.ts: the `q` parameter is `null` or a
string; a falsy query is rejected as `MISSING_QUERY`, then the length bounds
are enforced before the pipeline (search + optional enrichment + dedupe)
runs.  Thrown `ValidationError`s reach the `catch` and become
`createErrorResponse` envelopes. -/
def searchRouteGET (q : Option String)
    (pipeline : String → (Except JsError (List Movie)) × List String) :
    HandlerOutcome × List String :=
  let truthy : Bool := match q with | some s => s != "" | none => false
  if !truthy then (.errorEnvelope 400 "MISSING_QUERY", [])
  else
    let query := q.getD ""
    if query.length < 2 then
      let r := createErrorResponse
        (JsError.validation "Search query must be at least 2 characters long")
      (.errorEnvelope r.status r.code, [])
    else if query.length > 100 then
      let r := createErrorResponse
        (JsError.validation "Search query is too long (max 100 characters)")
      (.errorEnvelope r.status r.code, [])
    else
      match pipeline (sanitizeQuery query) with
      | (.ok _, t) => (.success 200, t)
      | (.error e, t) =>
        let r := createErrorResponse e
        (.errorEnvelope r.status r.code, t)

/-- `replace(/\/$/, "")`. -/
def stripTrailingSlash (s : String) : String :=
  if s.data.getLast? == some '/' then String.mk (s.data.dropLast) else s

/-- `getskyBapUrl` from src/config/index.ts: fetch `https://skybap.com`,
read the badge link href (cheerio work, an oracle), strip a trailing slash,
default to `https://skymovieshd.dance`.  Its fetch outcome is the
`skybapFetch` parameter. -/
def getskyBapUrl (skybapFetch : Except JsError String)
    (badgeHref : String → Option String) : Except JsError String :=
  match skybapFetch with
  | .error e => .error e
  | .ok html => .ok (((badgeHref html).map stripTrailingSlash).getD "https://skymovieshd.dance")

/-- `GET` of src/app/api/movies/route.ts.  The handler's first action, before
the `try` block and before reading any request parameter, is
`await getskyBapUrl()` — a network fetch of `https://skybap.com`; a failure
there escapes the handler uncaught.  Only then is the `search` parameter
validated; the scraping work afterwards is the `pipeline` oracle (its trace
is appended after the skybap.com fetch). -/
def moviesRouteGET (search : Option String)
    (skybapFetch : Except JsError String) (badgeHref : String → Option String)
    (pipeline : String → (Except JsError (List Movie)) × List String) :
    HandlerOutcome × List String :=
  match getskyBapUrl skybapFetch badgeHref with
  | .error e => (.thrown e, ["https://skybap.com"])
  | .ok skybapUrl =>
    let searchActive : Bool := match search with | some s => s != "" | none => false
    if searchActive then
      let s := search.getD ""
      if s.length < 2 then
        let r := createErrorResponse
          (JsError.validation "Search query must be at least 2 characters long")
        (.errorEnvelope r.status r.code, ["https://skybap.com"])
      else if s.length > 100 then
        let r := createErrorResponse
          (JsError.validation "Search query is too long (max 100 characters)")
        (.errorEnvelope r.status r.code, ["https://skybap.com"])
      else
        match pipeline skybapUrl with
        | (.ok _, t) => (.success 200, "https://skybap.com" :: t)
        | (.error e, t) =>
          let r := createErrorResponse e
          (.errorEnvelope r.status r.code, "https://skybap.com" :: t)
    else
      match pipeline skybapUrl with
      | (.ok _, t) => (.success 200, "https://skybap.com" :: t)
      | (.error e, t) =>
        let r := createErrorResponse e
        (.errorEnvelope r.status r.code, "https://skybap.com" :: t)

/-! ## Analysis of the dedupe

The fold over the entry map evolves every key independently.  `entriesAt k`
projects the (at most one, in every reachable state) value stored under key
`k`; `stepAt`/`winnerFrom` describe how one movie advances it. -/

/-- The dedupe key of a movie. -/
def movieKey (m : Movie) : String := getBaseTitle m.title

/-- The dedupe rank of a movie. -/
def movieRank (m : Movie) : Nat := getQualityRank m.quality

/-- The strictly-better replacement of the dedupe loop. -/
def keepBetter (c m : Movie) : Movie := if movieRank m < movieRank c then m else c

/-- Values stored under key `k` in an entry list. -/
def entriesAt (k : String) (es : List (String × Movie)) : List Movie :=
  (es.filter (fun e => e.1 == k)).map Prod.snd

/-- How one movie advances the values stored under key `k`. -/
def stepAt (k : String) (c : List Movie) (m : Movie) : List Movie :=
  if movieKey m == k then
    if c.isEmpty then [m] else c.map (fun x => keepBetter x m)
  else c

/-- `map.set` on the key list: keep the list if the key is present, else
append it. -/
def insKey (ks : List String) (k : String) : List String :=
  if ks.any (fun x => x == k) then ks else ks ++ [k]

/-- The keys of the dedupe map in insertion order: first occurrence of each
base title. -/
def firstOccKeys (ms : List Movie) : List String :=
  ms.foldl (fun ks m => insKey ks (movieKey m)) []

theorem dedupeUpdate_fst (base : String) (movie : Movie) (e : String × Movie) :
    (dedupeUpdate base movie e).1 = e.1 := by
  unfold dedupeUpdate
  split
  · split <;> rfl
  · rfl

theorem dedupeStep_keys (es : List (String × Movie)) (m : Movie) :
    (dedupeStep es m).map Prod.fst = insKey (es.map Prod.fst) (movieKey m) := by
  unfold dedupeStep insKey movieKey
  have hany : (es.map Prod.fst).any (fun x => x == getBaseTitle m.title)
      = es.any (fun e => e.1 == getBaseTitle m.title) := by
    induction es with
    | nil => rfl
    | cons e t ih => simp [List.any_cons, ih]
  rw [hany]
  by_cases h : es.any (fun e => e.1 == getBaseTitle m.title) = true
  · simp only [h, if_true]
    simp [List.map_map, Function.comp, dedupeUpdate_fst]
  · simp only [Bool.not_eq_true] at h
    simp [h]

theorem foldl_dedupeStep_keys (ms : List Movie) :
    ∀ es : List (String × Movie),
      (List.foldl dedupeStep es ms).map Prod.fst
        = List.foldl (fun ks m => insKey ks (movieKey m)) (es.map Prod.fst) ms := by
  induction ms with
  | nil => intro es; rfl
  | cons m rest ih =>
    intro es
    simp only [List.foldl_cons]
    rw [ih (dedupeStep es m), dedupeStep_keys]

theorem mem_foldl_dedupeStep_key (ms : List Movie) :
    ∀ es : List (String × Movie), (∀ e ∈ es, e.1 = movieKey e.2) →
      ∀ e ∈ List.foldl dedupeStep es ms, e.1 = movieKey e.2 := by
  induction ms with
  | nil => intro es h e he; exact h e he
  | cons m rest ih =>
    intro es h e he
    refine ih (dedupeStep es m) ?_ e he
    intro e1 he1
    simp only [dedupeStep] at he1
    split at he1
    · rcases List.mem_map.mp he1 with ⟨e0, he0, rfl⟩
      unfold dedupeUpdate
      split
      · next hb =>
        split
        · simpa [movieKey] using (eq_of_beq hb)
        · exact h e0 he0
      · exact h e0 he0
    · rcases List.mem_append.mp he1 with h1 | h1
      · exact h e1 h1
      · rcases List.mem_singleton.mp h1 with rfl
        rfl

theorem insKey_nodup (ks : List String) (k : String) (h : ks.Nodup) :
    (insKey ks k).Nodup := by
  unfold insKey
  split
  · exact h
  · next hany =>
    have hk : k ∉ ks := by
      intro hmem
      exact hany (List.any_eq_true.mpr ⟨k, hmem, beq_self_eq_true k⟩)
    simp [List.nodup_append, h, hk]

theorem foldl_insKey_nodup (ms : List Movie) :
    ∀ ks : List String, ks.Nodup →
      (List.foldl (fun ks m => insKey ks (movieKey m)) ks ms).Nodup := by
  induction ms with
  | nil => intro ks h; exact h
  | cons m rest ih =>
    intro ks h
    exact ih _ (insKey_nodup ks (movieKey m) h)

theorem entriesAt_cons (k : String) (e : String × Movie) (es : List (String × Movie)) :
    entriesAt k (e :: es)
      = if e.1 == k then e.2 :: entriesAt k es else entriesAt k es := by
  simp only [entriesAt, List.filter_cons]
  split <;> simp

theorem entriesAt_append (k : String) (es1 es2 : List (String × Movie)) :
    entriesAt k (es1 ++ es2) = entriesAt k es1 ++ entriesAt k es2 := by
  simp [entriesAt, List.filter_append]

theorem entriesAt_map_update (k base : String) (m : Movie) :
    ∀ es : List (String × Movie),
      entriesAt k (es.map (dedupeUpdate base m))
        = if k = base then (entriesAt k es).map (fun x => keepBetter x m)
          else entriesAt k es := by
  intro es
  induction es with
  | nil => simp [entriesAt]
  | cons e t ih =>
    simp only [List.map_cons]
    rw [entriesAt_cons, entriesAt_cons, dedupeUpdate_fst]
    by_cases hek : (e.1 == k) = true
    · have he1 : e.1 = k := eq_of_beq hek
      simp only [hek, if_true]
      by_cases hkb : k = base
      · have hsnd : (dedupeUpdate base m e).2 = keepBetter e.2 m := by
          simp only [dedupeUpdate, keepBetter, movieRank, he1, hkb, beq_self_eq_true,
            if_true]
          split <;> rfl
        rw [ih, hsnd]
        simp [hkb]
      · have hsnd : (dedupeUpdate base m e).2 = e.2 := by
          have : (e.1 == base) = false := by
            rw [he1]
            exact beq_eq_false_iff_ne.mpr hkb
          simp [dedupeUpdate, this]
        rw [ih, hsnd]
        simp [hkb]
    · simp only [Bool.not_eq_true] at hek
      simp [hek, ih]

theorem entriesAt_dedupeStep (k : String) (es : List (String × Movie)) (m : Movie) :
    entriesAt k (dedupeStep es m) = stepAt k (entriesAt k es) m := by
  simp only [dedupeStep, stepAt]
  by_cases hany : (es.any fun e => e.1 == getBaseTitle m.title) = true
  · simp only [hany, if_true]
    rw [entriesAt_map_update]
    by_cases hk : (movieKey m == k) = true
    · have hkb : k = getBaseTitle m.title := by
        have h1 := eq_of_beq hk
        simpa [movieKey] using h1.symm
      have hne : entriesAt k es ≠ [] := by
        rcases List.any_eq_true.mp hany with ⟨e, he, hbe⟩
        intro hnil
        have hmem : e.2 ∈ entriesAt k es := by
          simp only [entriesAt, List.mem_map]
          exact ⟨e, List.mem_filter.mpr ⟨he, by rw [hkb]; exact hbe⟩, rfl⟩
        rw [hnil] at hmem
        exact List.not_mem_nil _ hmem
      subst hkb
      simp [movieKey, hne]
    · have hkb : ¬ k = getBaseTitle m.title := by
        intro hcontra
        apply hk
        simp [movieKey, hcontra]
      simp only [Bool.not_eq_true] at hk
      simp [hk, hkb]
  · simp only [Bool.not_eq_true] at hany
    simp only [hany, Bool.false_eq_true, if_false]
    rw [entriesAt_append]
    have hnil : entriesAt (getBaseTitle m.title) es = [] := by
      simp only [entriesAt, List.map_eq_nil_iff, List.filter_eq_nil_iff]
      intro e he
      have h2 := List.any_eq_false.mp hany e he
      simpa using h2
    by_cases hk : (movieKey m == k) = true
    · have hkb : k = getBaseTitle m.title := by
        have h1 := eq_of_beq hk
        simpa [movieKey] using h1.symm
      subst hkb
      rw [hnil]
      simp [movieKey, entriesAt_cons, entriesAt]
    · have hkb : (getBaseTitle m.title == k) = false := by
        simp only [Bool.not_eq_true] at hk
        simpa [movieKey] using hk
      simp only [Bool.not_eq_true] at hk
      rw [entriesAt_cons]
      have hkb2 : ¬ movieKey m = k := by
        intro hcontra
        rw [hcontra] at hk
        simp at hk
      simp [hkb, hkb2, entriesAt]

theorem entriesAt_foldl_dedupeStep (k : String) (ms : List Movie) :
    ∀ es : List (String × Movie),
      entriesAt k (List.foldl dedupeStep es ms)
        = List.foldl (stepAt k) (entriesAt k es) ms := by
  induction ms with
  | nil => intro es; rfl
  | cons m rest ih =>
    intro es
    simp only [List.foldl_cons]
    rw [ih, entriesAt_dedupeStep]

/-- The value stored under key `k` after the remaining movies are folded in,
starting from current value `c`. -/
def winnerFrom (k : String) (c : Movie) : List Movie → Movie
  | [] => c
  | m :: rest => winnerFrom k (if movieKey m == k then keepBetter c m else c) rest

theorem foldl_stepAt_singleton (k : String) :
    ∀ (ms : List Movie) (c : Movie),
      List.foldl (stepAt k) [c] ms = [winnerFrom k c ms] := by
  intro ms
  induction ms with
  | nil => intro c; rfl
  | cons m rest ih =>
    intro c
    simp only [List.foldl_cons, winnerFrom]
    have hstep : stepAt k [c] m = [if movieKey m == k then keepBetter c m else c] := by
      simp only [stepAt]
      by_cases hk : (movieKey m == k) = true
      · simp [hk]
      · simp only [Bool.not_eq_true] at hk
        simp [hk]
    rw [hstep, ih]

theorem movieRank_keepBetter_left (c m : Movie) :
    movieRank (keepBetter c m) ≤ movieRank c := by
  unfold keepBetter
  split
  · omega
  · exact le_refl _

theorem movieRank_keepBetter_right (c m : Movie) :
    movieRank (keepBetter c m) ≤ movieRank m := by
  unfold keepBetter
  split
  · exact le_refl _
  · omega

theorem winnerFrom_rank_le_start (k : String) :
    ∀ (ms : List Movie) (c : Movie), movieRank (winnerFrom k c ms) ≤ movieRank c := by
  intro ms
  induction ms with
  | nil => intro c; exact le_refl _
  | cons m rest ih =>
    intro c
    simp only [winnerFrom]
    refine le_trans (ih _) ?_
    by_cases hk : (movieKey m == k) = true
    · simp [hk, movieRank_keepBetter_left]
    · simp only [Bool.not_eq_true] at hk
      simp [hk]

theorem winnerFrom_rank_le_mem (k : String) :
    ∀ (ms : List Movie) (c : Movie), ∀ m ∈ ms, (movieKey m == k) = true →
      movieRank (winnerFrom k c ms) ≤ movieRank m := by
  intro ms
  induction ms with
  | nil => intro c m hm; exact absurd hm (List.not_mem_nil m)
  | cons m0 rest ih =>
    intro c m hm hkm
    rcases List.mem_cons.mp hm with rfl | hm2
    · simp only [winnerFrom, hkm, if_true]
      exact le_trans (winnerFrom_rank_le_start k rest _) (movieRank_keepBetter_right c m)
    · simp only [winnerFrom]
      exact ih _ m hm2 hkm

theorem winnerFrom_eq_or_lt (k : String) :
    ∀ (ms : List Movie) (c : Movie),
      winnerFrom k c ms = c ∨ movieRank (winnerFrom k c ms) < movieRank c := by
  intro ms
  induction ms with
  | nil => intro c; exact Or.inl rfl
  | cons m rest ih =>
    intro c
    simp only [winnerFrom]
    by_cases hk : (movieKey m == k) = true
    · simp only [hk, if_true]
      by_cases hlt : movieRank m < movieRank c
      · have hkb : keepBetter c m = m := by simp [keepBetter, hlt]
        rw [hkb]
        rcases ih m with h | h
        · rw [h]; exact Or.inr hlt
        · exact Or.inr (lt_trans h hlt)
      · have hkb : keepBetter c m = c := by simp [keepBetter, hlt]
        rw [hkb]
        exact ih c
    · simp only [Bool.not_eq_true] at hk
      simp only [hk, Bool.false_eq_true, if_false]
      exact ih c

theorem winnerFrom_find (k : String) :
    ∀ (ms : List Movie) (c : Movie),
      movieRank (winnerFrom k c ms) < movieRank c →
      List.find? (fun m => (movieKey m == k) && (movieRank m == movieRank (winnerFrom k c ms))) ms
        = some (winnerFrom k c ms) := by
  intro ms
  induction ms with
  | nil =>
    intro c h
    exact absurd h (lt_irrefl _)
  | cons m rest ih =>
    intro c h
    by_cases hkm : (movieKey m == k) = true
    · by_cases hlt : movieRank m < movieRank c
      · have hkb : keepBetter c m = m := by simp [keepBetter, hlt]
        simp only [winnerFrom, hkm, if_true, hkb] at h ⊢
        rcases winnerFrom_eq_or_lt k rest m with hw | hw
        · rw [hw, List.find?_cons]
          simp [hkm]
        · rw [List.find?_cons]
          have hne : movieRank m ≠ movieRank (winnerFrom k m rest) := by omega
          simp only [hkm, beq_eq_false_iff_ne.mpr hne, Bool.and_false, Bool.true_and]
          exact ih m hw
      · have hkb : keepBetter c m = c := by simp [keepBetter, hlt]
        simp only [winnerFrom, hkm, if_true, hkb] at h ⊢
        rw [List.find?_cons]
        have hne : movieRank m ≠ movieRank (winnerFrom k c rest) := by omega
        simp only [hkm, beq_eq_false_iff_ne.mpr hne, Bool.and_false, Bool.true_and]
        exact ih c h
    · simp only [Bool.not_eq_true] at hkm
      simp only [winnerFrom, hkm, Bool.false_eq_true, if_false] at h ⊢
      rw [List.find?_cons]
      simp only [hkm, Bool.false_and]
      exact ih c h

theorem foldAt_min (k : String) :
    ∀ (ms : List Movie) (x : Movie), x ∈ List.foldl (stepAt k) [] ms →
      ∀ m ∈ ms, (movieKey m == k) = true → movieRank x ≤ movieRank m := by
  intro ms
  induction ms with
  | nil => intro x hx; exact absurd hx (List.not_mem_nil x)
  | cons m0 rest ih =>
    intro x hx m hm hkm
    simp only [List.foldl_cons] at hx
    by_cases hk0 : (movieKey m0 == k) = true
    · have hstep : stepAt k [] m0 = [m0] := by simp [stepAt, hk0]
      rw [hstep, foldl_stepAt_singleton] at hx
      rcases List.mem_singleton.mp hx with rfl
      rcases List.mem_cons.mp hm with rfl | hm2
      · exact winnerFrom_rank_le_start k rest m
      · exact winnerFrom_rank_le_mem k rest m0 m hm2 hkm
    · have hstep : stepAt k [] m0 = [] := by
        simp only [Bool.not_eq_true] at hk0
        simp [stepAt, hk0]
      rw [hstep] at hx
      rcases List.mem_cons.mp hm with rfl | hm2
      · exact absurd hkm (by simp_all)
      · exact ih x hx m hm2 hkm

theorem foldAt_find (k : String) :
    ∀ (ms : List Movie) (x : Movie), x ∈ List.foldl (stepAt k) [] ms →
      List.find? (fun m => (movieKey m == k) && (movieRank m == movieRank x)) ms = some x := by
  intro ms
  induction ms with
  | nil => intro x hx; exact absurd hx (List.not_mem_nil x)
  | cons m0 rest ih =>
    intro x hx
    simp only [List.foldl_cons] at hx
    by_cases hk0 : (movieKey m0 == k) = true
    · have hstep : stepAt k [] m0 = [m0] := by simp [stepAt, hk0]
      rw [hstep, foldl_stepAt_singleton] at hx
      rcases List.mem_singleton.mp hx with rfl
      rcases winnerFrom_eq_or_lt k rest m0 with hw | hw
      · rw [hw, List.find?_cons]
        simp [hk0]
      · rw [List.find?_cons]
        have hne : movieRank m0 ≠ movieRank (winnerFrom k m0 rest) := by omega
        simp only [hk0, beq_eq_false_iff_ne.mpr hne, Bool.and_false, Bool.true_and]
        exact winnerFrom_find k rest m0 hw
    · have hstep : stepAt k [] m0 = [] := by
        simp only [Bool.not_eq_true] at hk0
        simp [stepAt, hk0]
      rw [hstep] at hx
      simp only [Bool.not_eq_true] at hk0
      rw [List.find?_cons]
      simp only [hk0, Bool.false_and]
      exact ih x hx

theorem mem_dedupe_to_foldAt (ms : List Movie) (x : Movie)
    (hx : x ∈ dedupeMoviesByTitleHighestQuality ms) :
    x ∈ List.foldl (stepAt (movieKey x)) [] ms := by
  unfold dedupeMoviesByTitleHighestQuality at hx
  rcases List.mem_map.mp hx with ⟨e, he, rfl⟩
  have hkey : e.1 = movieKey e.2 := mem_foldl_dedupeStep_key ms [] (by simp) e he
  have hmem : e.2 ∈ entriesAt e.1 (List.foldl dedupeStep [] ms) := by
    simp only [entriesAt, List.mem_map]
    exact ⟨e, List.mem_filter.mpr ⟨he, by simp⟩, rfl⟩
  rw [entriesAt_foldl_dedupeStep] at hmem
  rw [hkey] at hmem
  simpa [entriesAt] using hmem

theorem dedupe_keys (ms : List Movie) :
    (dedupeMoviesByTitleHighestQuality ms).map movieKey = firstOccKeys ms := by
  unfold dedupeMoviesByTitleHighestQuality
  rw [List.map_map]
  have h1 : List.map (movieKey ∘ Prod.snd) (List.foldl dedupeStep [] ms)
      = List.map Prod.fst (List.foldl dedupeStep [] ms) := by
    apply List.map_congr_left
    intro e he
    have h2 := mem_foldl_dedupeStep_key ms [] (by simp) e he
    simp only [Function.comp]
    exact h2.symm
  rw [h1, foldl_dedupeStep_keys]
  rfl

theorem foldl_dedupeStep_fresh (ms : List Movie) :
    ∀ es : List (String × Movie),
      (∀ m ∈ ms, ∀ e ∈ es, e.1 ≠ movieKey m) →
      (ms.map movieKey).Nodup →
      List.foldl dedupeStep es ms = es ++ ms.map (fun m => (movieKey m, m)) := by
  induction ms with
  | nil => intro es _ _; simp
  | cons m rest ih =>
    intro es hfresh hnodup
    simp only [List.foldl_cons]
    have hany : (es.any fun e => e.1 == getBaseTitle m.title) = false := by
      rw [List.any_eq_false]
      intro e he
      have h2 := hfresh m (by simp) e he
      simpa [movieKey] using h2
    have hstep : dedupeStep es m = es ++ [(movieKey m, m)] := by
      simp only [dedupeStep, hany, Bool.false_eq_true, if_false]
      rfl
    simp only [List.map_cons, List.nodup_cons] at hnodup
    rw [hstep, ih]
    · simp
    · intro m2 hm2 e he
      rcases List.mem_append.mp he with h1 | h1
      · exact hfresh m2 (by simp [hm2]) e h1
      · rcases List.mem_singleton.mp h1 with rfl
        intro hcontra
        simp only at hcontra
        exact hnodup.1 (hcontra ▸ List.mem_map_of_mem movieKey hm2)
    · exact hnodup.2

/-- C2.  `dedupeMoviesByTitleHighestQuality` keeps at most one entry per
base-title key (the trimmed, case-folded title prefix before the first `(`);
the kept entry's quality rank under the fixed order (4K … SD, with
absent/unrecognized ranking last) is ≤ the rank of every same-key input
entry; and the kept entry is the first input entry attaining that (minimal)
rank for its key, so equal-rank ties keep the first encountered. -/
theorem dedupe_per_key_best_kept (movies : List Movie) :
    ((dedupeMoviesByTitleHighestQuality movies).map (fun m => getBaseTitle m.title)).Nodup
    ∧ (∀ kept ∈ dedupeMoviesByTitleHighestQuality movies, ∀ m ∈ movies,
        getBaseTitle m.title = getBaseTitle kept.title →
        getQualityRank kept.quality ≤ getQualityRank m.quality)
    ∧ (∀ kept ∈ dedupeMoviesByTitleHighestQuality movies,
        movies.find? (fun m => (getBaseTitle m.title == getBaseTitle kept.title)
          && (getQualityRank m.quality == getQualityRank kept.quality)) = some kept) := by
  refine ⟨?_, ?_, ?_⟩
  · have h1 : (dedupeMoviesByTitleHighestQuality movies).map (fun m => getBaseTitle m.title)
        = firstOccKeys movies := by
      have h2 := dedupe_keys movies
      simpa [movieKey] using h2
    rw [h1]
    exact foldl_insKey_nodup movies [] List.nodup_nil
  · intro kept hkept m hm hkey
    have hmem := mem_dedupe_to_foldAt movies kept hkept
    have hkeq : (movieKey m == movieKey kept) = true := by
      simp [movieKey, hkey]
    exact foldAt_min (movieKey kept) movies kept hmem m hm hkeq
  · intro kept hkept
    have hmem := mem_dedupe_to_foldAt movies kept hkept
    have h3 := foldAt_find (movieKey kept) movies kept hmem
    simpa [movieKey, movieRank] using h3

/-- Concrete instantiation of `dedupe_per_key_best_kept`: with two listings
sharing the base key `"alpha"`, the kept `1080P` entry ranks no worse than
the discarded `720P` one. -/
theorem dedupe_per_key_best_kept_witness :
    getQualityRank (some "1080P") ≤ getQualityRank (some "720P") := by
  have h := dedupe_per_key_best_kept
    [{ title := "Alpha (2024) 720p", link := "l1", quality := some "720P" },
     { title := "alpha (2023) 1080p", link := "l2", quality := some "1080P" }]
  exact h.2.1 { title := "alpha (2023) 1080p", link := "l2", quality := some "1080P" }
    (by decide) { title := "Alpha (2024) 720p", link := "l1", quality := some "720P" }
    (by decide) (by decide)

/-- C10.  The dedupe is idempotent, and its output lists the surviving
entries in the order in which their base-title keys first occur in the
input (`firstOccKeys`). -/
theorem dedupe_idempotent_first_occurrence_order (movies : List Movie) :
    dedupeMoviesByTitleHighestQuality (dedupeMoviesByTitleHighestQuality movies)
      = dedupeMoviesByTitleHighestQuality movies
    ∧ (dedupeMoviesByTitleHighestQuality movies).map (fun m => getBaseTitle m.title)
      = firstOccKeys movies := by
  constructor
  · have hnodup : ((dedupeMoviesByTitleHighestQuality movies).map movieKey).Nodup := by
      rw [dedupe_keys]
      exact foldl_insKey_nodup movies [] List.nodup_nil
    have hfresh := foldl_dedupeStep_fresh (dedupeMoviesByTitleHighestQuality movies) []
      (by intro m _ e he; exact absurd he (List.not_mem_nil e)) hnodup
    calc dedupeMoviesByTitleHighestQuality (dedupeMoviesByTitleHighestQuality movies)
        = (List.foldl dedupeStep []
            (dedupeMoviesByTitleHighestQuality movies)).map Prod.snd := rfl
      _ = ([] ++ (dedupeMoviesByTitleHighestQuality movies).map
            (fun m => (movieKey m, m))).map Prod.snd := by rw [hfresh]
      _ = dedupeMoviesByTitleHighestQuality movies := by
            rw [List.nil_append, List.map_map]
            have hid : (Prod.snd ∘ fun m : Movie => (movieKey m, m)) = id := rfl
            rw [hid, List.map_id]
  · have h2 := dedupe_keys movies
    simpa [movieKey] using h2

/-- C3.  Evaluating both copies of `extractQualityFromText` on the spec's
examples.  The copy in src/utils/scraper.ts has a trailing empty alternative
in its format regex (`…|HD|SD|Low Quality|)`), which matches the empty
string at position 0, so the format branch can only ever return a token that
starts the string: on `"Movie.Name.HDRip"` it returns the JS empty string
instead of `"HDRIP"`, and its `return undefined` fall-through is
unreachable.  The copy in src/unnamed/part_006 (without the empty
alternative) behaves exactly as the specification states. -/
theorem extractQuality_examples_and_regex_slip :
    extractQualityFromText "Movie.Name.1080p.BluRay" = some "1080P"
    ∧ extractQualityFromText "Movie.Name.HDRip" = some ""
    ∧ extractQualityFromText "Movie.Name" = some ""
    ∧ extractQualityFromTextPart006 "Movie.Name.1080p.BluRay" = some "1080P"
    ∧ extractQualityFromTextPart006 "Movie.Name.HDRip" = some "HDRIP"
    ∧ extractQualityFromTextPart006 "Movie.Name" = none := by
  refine ⟨by decide, by decide, by decide, by decide, by decide, by decide⟩

/-! ## Retry-policy theorems -/

/-- C4.  Under the configured cap (`SCRAPER_CONFIG.maxRetries = 3`): an
operation that fails on attempts 0 and 1 with retryable errors and succeeds
on attempt 2 returns that success after exactly 3 attempts, within the cap
of 4 total attempts; an operation that fails with a 404 `ScrapingError` has
that very error rethrown after a single attempt, with no retry. -/
theorem withRetry_retryable_then_success_and_404_immediate :
    (∀ (α : Type) (op : Nat → Except JsError α) (e0 e1 : JsError) (v : α),
      op 0 = .error e0 → op 1 = .error e1 → op 2 = .ok v →
      isNonRetryable e0 = false → isNonRetryable e1 = false →
      withRetry op SCRAPER_CONFIG.maxRetries = (.ok v, 3)
        ∧ 3 ≤ SCRAPER_CONFIG.maxRetries + 1)
    ∧ (∀ (α : Type) (op : Nat → Except JsError α) (msg : String) (cause : Option JsError),
      op 0 = .error (.scraping msg 404 cause) →
      withRetry op SCRAPER_CONFIG.maxRetries = (.error (.scraping msg 404 cause), 1)) := by
  constructor
  · intro α op e0 e1 v h0 h1 h2 hr0 hr1
    have hmr : SCRAPER_CONFIG.maxRetries = 3 := rfl
    rw [hmr]
    refine ⟨?_, by omega⟩
    simp [withRetry, runRetryFrom, h0, h1, h2, hr0, hr1]
  · intro α op msg cause h0
    have hmr : SCRAPER_CONFIG.maxRetries = 3 := rfl
    rw [hmr]
    simp [withRetry, runRetryFrom, h0, isNonRetryable]

/-- The first C4 scenario at a concrete operation: two 502 failures then
success. -/
def retryOpSucceedsThird : Nat → Except JsError Nat := fun n =>
  if n < 2 then .error (.scraping "Server error" 502 none) else .ok 42

/-- The second C4 scenario at a concrete operation: always 404. -/
def retryOpNotFound : Nat → Except JsError Nat := fun _ =>
  .error (.scraping "Resource not found" 404 none)

/-- Concrete instantiation of both halves of C4. -/
theorem withRetry_retryable_then_success_and_404_immediate_witness :
    withRetry retryOpSucceedsThird SCRAPER_CONFIG.maxRetries = (.ok 42, 3)
    ∧ withRetry retryOpNotFound SCRAPER_CONFIG.maxRetries
        = (.error (.scraping "Resource not found" 404 none), 1) := by
  constructor
  · exact (withRetry_retryable_then_success_and_404_immediate.1 Nat retryOpSucceedsThird
      (.scraping "Server error" 502 none) (.scraping "Server error" 502 none) 42
      rfl rfl rfl rfl rfl).1
  · exact withRetry_retryable_then_success_and_404_immediate.2 Nat retryOpNotFound
      "Resource not found" none rfl

/-- The raw axios timeout failure (`error.code === "ECONNABORTED"`). -/
def timeoutAxiosFail : JsError :=
  .axios "timeout of 15000ms exceeded" (some "ECONNABORTED") none

/-- An operation that times out on every attempt, as classified by the
`createHttpClient` interceptor. -/
def retryOpTimeout : Nat → Except JsError Nat := fun _ =>
  .error (interceptError timeoutAxiosFail)

/-- C5, counterexample.  The interceptor classifies a timeout as a
`ScrapingError` with status 408 — a 4xx — so `withRetry` rethrows it after a
single attempt: a timeout is NOT retried until the attempt cap (which would
take `maxRetries + 1 = 4` attempts). -/
theorem timeout_not_retried_counterexample :
    interceptError timeoutAxiosFail
      = .scraping "Request timeout - server took too long to respond" 408
          (some timeoutAxiosFail)
    ∧ withRetry retryOpTimeout SCRAPER_CONFIG.maxRetries
      = (.error (.scraping "Request timeout - server took too long to respond" 408
          (some timeoutAxiosFail)), 1)
    ∧ (1 : Nat) ≠ SCRAPER_CONFIG.maxRetries + 1 := by
  refine ⟨rfl, rfl, by decide⟩

theorem runRetryFrom_exhaust (α : Type) (op : Nat → Except JsError α)
    (es : Nat → JsError) (mr : Nat) :
    ∀ (r attempt : Nat),
      (∀ i, attempt ≤ i → i ≤ attempt + r → op i = .error (es i)) →
      (∀ i, attempt ≤ i → i ≤ attempt + r → isNonRetryable (es i) = false) →
      runRetryFrom op mr attempt r
        = (.error (.scraping (retryFailMessage mr (es (attempt + r))) 500
            (some (es (attempt + r)))), r + 1) := by
  intro r
  induction r with
  | zero =>
    intro attempt hop hre
    have h0 := hop attempt (le_refl _) (by omega)
    have h1 := hre attempt (le_refl _) (by omega)
    simp [runRetryFrom, h0, h1]
  | succ r ih =>
    intro attempt hop hre
    have h0 := hop attempt (le_refl _) (by omega)
    have h1 := hre attempt (le_refl _) (by omega)
    have hrec := ih (attempt + 1) (fun i hi1 hi2 => hop i (by omega) (by omega))
      (fun i hi1 hi2 => hre i (by omega) (by omega))
    have harith : attempt + 1 + r = attempt + (r + 1) := by omega
    rw [harith] at hrec
    simp [runRetryFrom, h0, h1, hrec]

/-- C5, amended.  A `Timeout`-classified failure carries status 408, which
falls in the non-retried 4xx range, so it is terminal after one attempt —
exactly like `Forbidden` (403), `NotFound` (404), any other 4xx
`ScrapingError`, and validation failures.  Failures with a retryable
classification are retried until the cap and then surface as a terminal 500
`ScrapingError` whose cause is the last error. -/
theorem timeout_terminal_and_retryable_exhaustion :
    (∀ (α : Type) (op : Nat → Except JsError α) (msg : String)
       (cause : Option JsError) (mr : Nat),
      op 0 = .error (.scraping msg 408 cause) →
      withRetry op mr = (.error (.scraping msg 408 cause), 1))
    ∧ (∀ (α : Type) (op : Nat → Except JsError α) (es : Nat → JsError) (mr : Nat),
      (∀ i, i ≤ mr → op i = .error (es i)) →
      (∀ i, i ≤ mr → isNonRetryable (es i) = false) →
      withRetry op mr
        = (.error (.scraping (retryFailMessage mr (es mr)) 500 (some (es mr))), mr + 1)) := by
  constructor
  · intro α op msg cause mr h0
    cases mr with
    | zero => simp [withRetry, runRetryFrom, h0, isNonRetryable]
    | succ r => simp [withRetry, runRetryFrom, h0, isNonRetryable]
  · intro α op es mr hop hre
    have h := runRetryFrom_exhaust α op es mr mr 0 (fun i hi1 hi2 => hop i (by omega))
      (fun i hi1 hi2 => hre i (by omega))
    simpa [withRetry] using h

/-- An operation that always fails with a retryable generic error. -/
def retryOpGeneric : Nat → Except JsError Nat := fun _ => .error (.generic "boom")

/-- Concrete instantiation of both halves of the amended C5. -/
theorem timeout_terminal_and_retryable_exhaustion_witness :
    withRetry retryOpTimeout 3
      = (.error (.scraping "Request timeout - server took too long to respond" 408
          (some timeoutAxiosFail)), 1)
    ∧ withRetry retryOpGeneric 1
      = (.error (.scraping (retryFailMessage 1 (.generic "boom")) 500
          (some (.generic "boom"))), 2) := by
  constructor
  · exact timeout_terminal_and_retryable_exhaustion.1 Nat retryOpTimeout
      "Request timeout - server took too long to respond" (some timeoutAxiosFail) 3 rfl
  · exact timeout_terminal_and_retryable_exhaustion.2 Nat retryOpGeneric
      (fun _ => .generic "boom") 1 (fun i _ => rfl) (fun i _ => rfl)

/-! ## Batch-processor theorems -/

theorem settleBatch_append {α β ε : Type} (p : α → Nat → Except ε β) :
    ∀ (as bs : List α) (n : Nat),
      settleBatch p n (as ++ bs)
        = settleBatch p n as ++ settleBatch p (n + as.length) bs := by
  intro as
  induction as with
  | nil => intro bs n; simp [settleBatch]
  | cons a t ih =>
    intro bs n
    have hcons : (a :: t) ++ bs = a :: (t ++ bs) := rfl
    rw [hcons]
    have harith : n + (a :: t).length = (n + 1) + t.length := by
      simp only [List.length_cons]
      omega
    rw [harith]
    simp only [settleBatch]
    cases hpa : p a n with
    | ok v =>
      rw [ih]
      rfl
    | error e =>
      rw [ih]

theorem chunksOf_cons {α : Type} (L : Nat) (x : α) (t : List α) :
    chunksOf L (x :: t) = ((x :: t).take L) :: chunksOf L (t.drop (L - 1)) := by
  simp [chunksOf]

theorem chunksOf_nil {α : Type} (L : Nat) : chunksOf L ([] : List α) = [] := by
  simp [chunksOf]

theorem runBatches_chunksOf {α β ε : Type} (p : α → Nat → Except ε β) (L : Nat)
    (hL : 1 ≤ L) :
    ∀ (xs : List α) (n : Nat), runBatches p n (chunksOf L xs) = settleBatch p n xs := by
  have H : ∀ (len : Nat) (xs : List α), xs.length ≤ len → ∀ n,
      runBatches p n (chunksOf L xs) = settleBatch p n xs := by
    intro len
    induction len with
    | zero =>
      intro xs hlen n
      have hnil : xs = [] := List.eq_nil_of_length_eq_zero (by omega)
      subst hnil
      rw [chunksOf_nil]
      rfl
    | succ k ih =>
      intro xs hlen n
      cases xs with
      | nil =>
        rw [chunksOf_nil]
        rfl
      | cons x t =>
        rw [chunksOf_cons]
        simp only [runBatches]
        have hdrop : t.drop (L - 1) = (x :: t).drop L := by
          cases L with
          | zero => omega
          | succ l => simp
        rw [hdrop]
        simp only [List.length_cons] at hlen
        have hlen2 : ((x :: t).drop L).length ≤ k := by
          simp only [List.length_drop, List.length_cons]
          omega
        rw [ih _ hlen2]
        conv_rhs => rw [← List.take_append_drop L (x :: t)]
        rw [settleBatch_append]
  exact fun xs n => H xs.length xs (le_refl _) n

theorem settleBatch_fail_at {α β ε : Type} (p : α → Nat → Except ε β)
    (f : α → Nat → β) (j : Nat)
    (hok : ∀ x i, i ≠ j → p x i = .ok (f x i))
    (hfail : ∀ x, ∃ e, p x j = .error e) :
    ∀ (xs : List α) (n : Nat),
      settleBatch p n xs
        = ((List.enumFrom n xs).filter (fun q => q.1 != j)).map (fun q => f q.2 q.1) := by
  intro xs
  induction xs with
  | nil => intro n; rfl
  | cons x t ih =>
    intro n
    simp only [settleBatch, List.enumFrom, List.filter_cons]
    by_cases hn : n = j
    · subst hn
      rcases hfail x with ⟨e, he⟩
      rw [he]
      simp [ih]
    · rw [hok x n hn]
      have hne : (n != j) = true := by simp [hn]
      simp only [hne, if_true]
      simp [ih]

theorem enumFrom_filter_all_kept {α : Type} (j : Nat) :
    ∀ (xs : List α) (n : Nat), j < n →
      (List.enumFrom n xs).filter (fun q => q.1 != j) = List.enumFrom n xs := by
  intro xs
  induction xs with
  | nil => intro n _; rfl
  | cons x t ih =>
    intro n hj
    simp only [List.enumFrom, List.filter_cons]
    have hne : (n != j) = true := by
      have h2 : n ≠ j := by omega
      simp [h2]
    simp only [hne, if_true]
    rw [ih (n + 1) (by omega)]

theorem enumFrom_filter_ne_length {α : Type} (j : Nat) :
    ∀ (xs : List α) (n : Nat), n ≤ j → j < n + xs.length →
      ((List.enumFrom n xs).filter (fun q => q.1 != j)).length = xs.length - 1 := by
  intro xs
  induction xs with
  | nil => intro n _ h; simp at h; omega
  | cons x t ih =>
    intro n hn hj
    simp only [List.enumFrom, List.filter_cons]
    by_cases heq : n = j
    · simp only [heq, bne_self_eq_false, Bool.false_eq_true, if_false]
      rw [enumFrom_filter_all_kept j t (j + 1) (by omega)]
      simp [List.enumFrom_length]
    · have hne : (n != j) = true := by simp [heq]
      simp only [hne, if_true, List.length_cons]
      simp only [List.length_cons] at hj
      have hlen1 : 1 ≤ t.length := by omega
      rw [ih (n + 1) (by omega) (by omega)]
      omega

theorem chunksOf_flatten {α : Type} (L : Nat) (hL : 1 ≤ L) :
    ∀ xs : List α, (chunksOf L xs).flatten = xs := by
  have H : ∀ (len : Nat) (xs : List α), xs.length ≤ len →
      (chunksOf L xs).flatten = xs := by
    intro len
    induction len with
    | zero =>
      intro xs hlen
      have hnil : xs = [] := List.eq_nil_of_length_eq_zero (by omega)
      subst hnil
      rw [chunksOf_nil]
      rfl
    | succ k ih =>
      intro xs hlen
      cases xs with
      | nil =>
        rw [chunksOf_nil]
        rfl
      | cons x t =>
        rw [chunksOf_cons]
        have hdrop : t.drop (L - 1) = (x :: t).drop L := by
          cases L with
          | zero => omega
          | succ l => simp
        rw [List.flatten_cons, hdrop]
        simp only [List.length_cons] at hlen
        have hlen2 : ((x :: t).drop L).length ≤ k := by
          simp only [List.length_drop, List.length_cons]
          omega
        rw [ih _ hlen2]
        exact List.take_append_drop L (x :: t)
  exact fun xs => H xs.length xs (le_refl _)

theorem chunksOf_sizes {α : Type} (L : Nat) (hL : 1 ≤ L) :
    ∀ xs : List α, ∀ b ∈ chunksOf L xs, 0 < b.length ∧ b.length ≤ L := by
  have H : ∀ (len : Nat) (xs : List α), xs.length ≤ len →
      ∀ b ∈ chunksOf L xs, 0 < b.length ∧ b.length ≤ L := by
    intro len
    induction len with
    | zero =>
      intro xs hlen b hb
      have hnil : xs = [] := List.eq_nil_of_length_eq_zero (by omega)
      subst hnil
      rw [chunksOf_nil] at hb
      exact absurd hb (List.not_mem_nil b)
    | succ k ih =>
      intro xs hlen b hb
      cases xs with
      | nil =>
        rw [chunksOf_nil] at hb
        exact absurd hb (List.not_mem_nil b)
      | cons x t =>
        rw [chunksOf_cons] at hb
        simp only [List.length_cons] at hlen
        rcases List.mem_cons.mp hb with rfl | hb2
        · constructor
          · simp only [List.length_take, List.length_cons]
            omega
          · simp only [List.length_take]
            omega
        · have hdrop : t.drop (L - 1) = (x :: t).drop L := by
            cases L with
            | zero => omega
            | succ l => simp
          rw [hdrop] at hb2
          refine ih ((x :: t).drop L) ?_ b hb2
          simp only [List.length_drop, List.length_cons]
          omega
  exact fun xs => H xs.length xs (le_refl _)

/-- C7.  With `1 ≤ K < N` items and a processor that always fails exactly at
one index `j` and succeeds everywhere else, `processMoviesWithConcurrency`
returns exactly `N − 1` results — precisely the successful items' results in
input order, so no other item is blocked by the failure — and the items are
consumed in sequential batches of size `min(K, N)` (every batch non-empty,
no batch larger than `min(K, N)`, and the batches concatenate back to the
input). -/
theorem processMovies_partial_failure (α β ε : Type) (items : List α) (K j : Nat)
    (p : α → Nat → Except ε β) (f : α → Nat → β)
    (hK : 1 ≤ K) (hKN : K < items.length) (hj : j < items.length)
    (hok : ∀ x i, i ≠ j → p x i = .ok (f x i))
    (hfail : ∀ x, ∃ e, p x j = .error e) :
    (processMoviesWithConcurrency items p K).length = items.length - 1
    ∧ processMoviesWithConcurrency items p K
        = ((items.enum.filter (fun q => q.1 != j)).map (fun q => f q.2 q.1))
    ∧ (chunksOf (min K items.length) items).flatten = items
    ∧ (∀ b ∈ chunksOf (min K items.length) items,
        0 < b.length ∧ b.length ≤ min K items.length) := by
  have hL : 1 ≤ min K items.length := by omega
  have hrun : processMoviesWithConcurrency items p K = settleBatch p 0 items := by
    unfold processMoviesWithConcurrency
    exact runBatches_chunksOf p (min K items.length) hL items 0
  have hchar : processMoviesWithConcurrency items p K
      = ((items.enum.filter (fun q => q.1 != j)).map (fun q => f q.2 q.1)) := by
    rw [hrun, settleBatch_fail_at p f j hok hfail items 0]
    rfl
  refine ⟨?_, hchar, chunksOf_flatten (min K items.length) hL items,
    chunksOf_sizes (min K items.length) hL items⟩
  rw [hchar, List.length_map]
  have henum : items.enum = List.enumFrom 0 items := rfl
  rw [henum]
  exact enumFrom_filter_ne_length j items 0 (by omega) (by omega)

/-- The concrete C7 processor: fails at global index 1, succeeds elsewhere. -/
def batchWitnessOp : Nat → Nat → Except String Nat := fun x i =>
  if i == 1 then .error "boom" else .ok (x + i)

/-- Concrete instantiation of C7: three items, concurrency limit 2, the item
at index 1 always fails; exactly two results come back. -/
theorem processMovies_partial_failure_witness :
    (processMoviesWithConcurrency [10, 20, 30] batchWitnessOp 2).length = 2
    ∧ processMoviesWithConcurrency [10, 20, 30] batchWitnessOp 2 = [10, 32] := by
  have h := processMovies_partial_failure Nat Nat String [10, 20, 30] 2 1
    batchWitnessOp (fun x i => x + i) (by omega) (by decide) (by decide)
    (by
      intro x i hi
      have hne : (i == 1) = false := by
        simp [hi]
      simp [batchWitnessOp, hne])
    (fun x => ⟨"boom", rfl⟩)
  refine ⟨by simpa using h.1, ?_⟩
  rw [h.2.1]
  decide

/-! ## Enrichment theorems -/

theorem settleBatch_all_ok {α β ε : Type} (p : α → Nat → Except ε β) (g : α → β)
    (hp : ∀ x i, p x i = .ok (g x)) :
    ∀ (xs : List α) (n : Nat), settleBatch p n xs = xs.map g := by
  intro xs
  induction xs with
  | nil => intro n; rfl
  | cons x t ih =>
    intro n
    simp only [settleBatch, hp, List.map_cons]
    rw [ih]

theorem processMovies_all_ok {α β ε : Type} (items : List α)
    (p : α → Nat → Except ε β) (g : α → β)
    (hp : ∀ x i, p x i = .ok (g x)) :
    processMoviesWithConcurrency items p (min SCRAPER_CONFIG.maxConcurrent items.length)
      = items.map g := by
  cases items with
  | nil =>
    simp only [processMoviesWithConcurrency]
    rw [chunksOf_nil]
    rfl
  | cons x t =>
    have hL : 1 ≤ min (min SCRAPER_CONFIG.maxConcurrent (x :: t).length) (x :: t).length := by
      have h100 : SCRAPER_CONFIG.maxConcurrent = 100 := rfl
      simp only [h100, List.length_cons]
      omega
    simp only [processMoviesWithConcurrency]
    rw [runBatches_chunksOf _ _ hL]
    exact settleBatch_all_ok p g hp (x :: t) 0

theorem fetchMovieDetailsWithConcurrencySkyBap_eq_map (movies : List Movie)
    (skyOp : String → Except JsError SkyDetails) :
    fetchMovieDetailsWithConcurrencySkyBap movies skyOp
      = movies.map (fun movie =>
          match skyOp movie.link with
          | .ok details => mergeSkyBapDetails movie details
          | .error _ => movie) := by
  unfold fetchMovieDetailsWithConcurrencySkyBap
  exact processMovies_all_ok movies _ _ (fun x i => rfl)

theorem fetch9xMovieDetailsWithConcurrency_eq_map (movies : List Movie)
    (nineOp : String → Except JsError (Option Movie)) :
    fetch9xMovieDetailsWithConcurrency movies nineOp
      = movies.map (fun movie =>
          match nineOp movie.link with
          | .ok (some details) => merge9xDetails movie details
          | .ok none => movie
          | .error _ => movie) := by
  unfold fetch9xMovieDetailsWithConcurrency
  exact processMovies_all_ok movies _ _ (fun x i => rfl)

/-- C9.  Detail enrichment never drops an item: both enrichment fans return
exactly one output per input, in order, and when the per-item detail fetch
(after its retries) fails for the movie at position `i`, the output at
position `i` is the original listing record, every field unchanged. -/
theorem enrichment_failure_preserves_listing (movies : List Movie)
    (skyOp : String → Except JsError SkyDetails)
    (nineOp : String → Except JsError (Option Movie)) :
    ((fetchMovieDetailsWithConcurrencySkyBap movies skyOp).length = movies.length
      ∧ ∀ (i : Nat) (h : i < movies.length) (e : JsError),
          skyOp (movies.get ⟨i, h⟩).link = .error e →
          (fetchMovieDetailsWithConcurrencySkyBap movies skyOp)[i]?
            = some (movies.get ⟨i, h⟩))
    ∧ ((fetch9xMovieDetailsWithConcurrency movies nineOp).length = movies.length
      ∧ ∀ (i : Nat) (h : i < movies.length) (e : JsError),
          nineOp (movies.get ⟨i, h⟩).link = .error e →
          (fetch9xMovieDetailsWithConcurrency movies nineOp)[i]?
            = some (movies.get ⟨i, h⟩)) := by
  constructor
  · rw [fetchMovieDetailsWithConcurrencySkyBap_eq_map movies skyOp]
    refine ⟨List.length_map _ _, ?_⟩
    intro i h e herr
    rw [List.getElem?_map]
    rw [List.getElem?_eq_getElem h]
    have hget : movies[i] = movies.get ⟨i, h⟩ := rfl
    simp only [Option.map, hget, herr]
  · rw [fetch9xMovieDetailsWithConcurrency_eq_map movies nineOp]
    refine ⟨List.length_map _ _, ?_⟩
    intro i h e herr
    rw [List.getElem?_map]
    rw [List.getElem?_eq_getElem h]
    have hget : movies[i] = movies.get ⟨i, h⟩ := rfl
    simp only [Option.map, hget, herr]

/-- The concrete C9 listing. -/
def listingWitness : Movie :=
  { title := "Witness Movie (2024)", link := "https://example.org/w",
    quality := some "720P", size := some "1.4GB", genre := some ["Action"] }

/-- Concrete instantiation of C9: a failing detail fetch leaves the single
listing in place, unchanged. -/
theorem enrichment_failure_preserves_listing_witness :
    (fetchMovieDetailsWithConcurrencySkyBap [listingWitness]
      (fun _ => .error (.generic "network down")))[0]? = some listingWitness := by
  exact ((enrichment_failure_preserves_listing [listingWitness]
    (fun _ => .error (.generic "network down"))
    (fun _ => .error (.generic "network down"))).1).2 0 (by decide)
    (.generic "network down") rfl

/-! ## Download-link theorems -/

theorem parseDownloadLink_some {vurl : String → Bool} {a : Anchor}
    {processed : List String} {l : DownloadLink}
    (h : (parseDownloadLink vurl a processed).1 = some l) :
    (parseDownloadLink vurl a processed).2 = l.url :: processed
    ∧ l.url ∉ processed := by
  cases ha : a.href with
  | none =>
    have hval : parseDownloadLink vurl a processed = (none, processed) := by
      unfold parseDownloadLink
      rw [ha]
    rw [hval] at h
    simp at h
  | some href =>
    by_cases h1 : href = ""
    · have hval : parseDownloadLink vurl a processed = (none, processed) := by
        unfold parseDownloadLink
        rw [ha]
        simp [h1]
      rw [hval] at h
      simp at h
    · by_cases h2 : sanitizeText a.text = ""
      · have hval : parseDownloadLink vurl a processed = (none, processed) := by
          unfold parseDownloadLink
          rw [ha]
          simp [h1, h2]
        rw [hval] at h
        simp at h
      · by_cases h3 : href ∈ processed
        · have hval : parseDownloadLink vurl a processed = (none, processed) := by
            unfold parseDownloadLink
            rw [ha]
            simp [h1, h2, h3]
          rw [hval] at h
          simp at h
        · by_cases h4 : (!vurl href && !strStartsWith href "/") = true
          · have hval : parseDownloadLink vurl a processed = (none, href :: processed) := by
              unfold parseDownloadLink
              rw [ha]
              simp [h1, h2, h3, h4]
            rw [hval] at h
            simp at h
          · simp only [Bool.not_eq_true] at h4
            have hval : parseDownloadLink vurl a processed
                = (some { label := sanitizeText a.text, url := href },
                   href :: processed) := by
              unfold parseDownloadLink
              rw [ha]
              simp [h1, h2, h3, h4]
            rw [hval] at h
            simp only [Option.some.injEq] at h
            subst h
            rw [hval]
            exact ⟨rfl, h3⟩

theorem parseDownloadLink_processed_mono (vurl : String → Bool) (a : Anchor)
    (processed : List String) :
    ∀ u ∈ processed, u ∈ (parseDownloadLink vurl a processed).2 := by
  intro u hu
  unfold parseDownloadLink
  cases ha : a.href with
  | none => exact hu
  | some href =>
    simp only
    split
    · exact hu
    · split
      · exact hu
      · split
        · exact List.mem_cons_of_mem href hu
        · exact List.mem_cons_of_mem href hu

theorem collectLinks_inv (vurl : String → Bool) :
    ∀ (anchors : List Anchor) (processed : List String),
      (((collectLinks vurl anchors processed).1.map (fun l => l.url)).Nodup)
      ∧ (∀ l ∈ (collectLinks vurl anchors processed).1,
          l.url ∉ processed ∧ l.url ∈ (collectLinks vurl anchors processed).2)
      ∧ (∀ u ∈ processed, u ∈ (collectLinks vurl anchors processed).2) := by
  intro anchors
  induction anchors with
  | nil =>
    intro processed
    refine ⟨List.nodup_nil, ?_, ?_⟩
    · intro l hl; exact absurd hl (List.not_mem_nil l)
    · intro u hu; exact hu
  | cons a rest ih =>
    intro processed
    simp only [collectLinks]
    cases hpd : parseDownloadLink vurl a processed with
    | mk res processed1 =>
      cases res with
      | some link =>
        simp only
        have hres : (parseDownloadLink vurl a processed).1 = some link := by
          rw [hpd]
        have hlink := parseDownloadLink_some hres
        rw [hpd] at hlink
        simp only at hlink
        have hp1 : processed1 = link.url :: processed := hlink.1
        subst hp1
        rcases ih (link.url :: processed) with ⟨ihnodup, ihnew, ihmono⟩
        refine ⟨?_, ?_, ?_⟩
        · simp only [List.map_cons, List.nodup_cons]
          refine ⟨?_, ihnodup⟩
          intro hc
          rcases List.mem_map.mp hc with ⟨l2, hl2, hurl⟩
          have h2 := (ihnew l2 hl2).1
          rw [hurl] at h2
          exact h2 (List.mem_cons_self _ _)
        · intro l hl
          rcases List.mem_cons.mp hl with rfl | hl2
          · exact ⟨hlink.2, ihmono l.url (List.mem_cons_self _ _)⟩
          · have h2 := ihnew l hl2
            exact ⟨fun hc => h2.1 (List.mem_cons_of_mem _ hc), h2.2⟩
        · intro u hu
          exact ihmono u (List.mem_cons_of_mem _ hu)
      | none =>
        simp only
        have hmono : ∀ u ∈ processed, u ∈ processed1 := by
          intro u hu
          have h2 := parseDownloadLink_processed_mono vurl a processed u hu
          rw [hpd] at h2
          exact h2
        rcases ih processed1 with ⟨ihnodup, ihnew, ihmono⟩
        refine ⟨ihnodup, ?_, ?_⟩
        · intro l hl
          have h2 := ihnew l hl
          exact ⟨fun hc => h2.1 (hmono l.url hc), h2.2⟩
        · intro u hu
          exact ihmono u (hmono u hu)

theorem collectFallbacks_urls_nodup (vurl : String → Bool) :
    ∀ (fallbacks : List (List Anchor)) (processed : List String),
      ((collectFallbacks vurl fallbacks processed).map (fun l => l.url)).Nodup := by
  intro fallbacks
  induction fallbacks with
  | nil => intro processed; exact List.nodup_nil
  | cons sel rest ih =>
    intro processed
    simp only [collectFallbacks]
    split
    · exact ih _
    · exact (collectLinks_inv vurl sel processed).1

theorem collectDownloadLinks_urls_nodup (vurl : String → Bool)
    (primary : List Anchor) (fallbacks : List (List Anchor)) :
    ((collectDownloadLinks vurl primary fallbacks).map (fun l => l.url)).Nodup := by
  simp only [collectDownloadLinks]
  split
  · exact collectFallbacks_urls_nodup vurl fallbacks _
  · exact (collectLinks_inv vurl primary []).1

theorem insertByRank_perm (x : DownloadLink) :
    ∀ l : List DownloadLink, (insertByRank x l).Perm (x :: l) := by
  intro l
  induction l with
  | nil => exact List.Perm.refl _
  | cons y ys ih =>
    simp only [insertByRank]
    split
    · exact List.Perm.refl _
    · exact List.Perm.trans (List.Perm.cons y ih) (List.Perm.swap x y ys)

theorem sortLinksByQuality_perm :
    ∀ l : List DownloadLink, (sortLinksByQuality l).Perm l := by
  intro l
  induction l with
  | nil => exact List.Perm.refl _
  | cons x xs ih =>
    simp only [sortLinksByQuality]
    exact List.Perm.trans (insertByRank_perm x (sortLinksByQuality xs))
      (List.Perm.cons x ih)

/-- C1, amended.  The SkyBap adapter's `extractDownloadLinks` produces a
list in which no two entries share a `url`: `parseDownloadLink` drops any
href already in the `processedUrls` set, and the final sort only permutes.
(The 9xmovie adapter's `parseDownloadLinks` does not deduplicate by url —
see the counterexample — it only disambiguates repeated labels.) -/
theorem skybap_extractDownloadLinks_urls_nodup (vurl : String → Bool)
    (primary : List Anchor) (fallbacks : List (List Anchor)) :
    ((extractDownloadLinks vurl primary fallbacks).map (fun l => l.url)).Nodup := by
  unfold extractDownloadLinks
  have hperm := (sortLinksByQuality_perm (collectDownloadLinks vurl primary fallbacks)).map
    (fun l => l.url)
  exact (List.Perm.nodup_iff hperm).mpr
    (collectDownloadLinks_urls_nodup vurl primary fallbacks)

/-- A concrete 9xmovie download section whose two (label, link) pairs point
at the same href. -/
def dup9xDivs : List TCenterDiv :=
  [{ text := "480p Links", dwnHref := none, dwnText := "" },
   { text := "x", dwnHref := some "https://h.example/file", dwnText := "Download [700MB]" },
   { text := "480p Links", dwnHref := none, dwnText := "" },
   { text := "x", dwnHref := some "https://h.example/file", dwnText := "Download [700MB]" }]

/-- C1, counterexample.  `parseDownloadLinks` in the 9xmovie adapter returns
two entries with the same `url` (the second merely gets a `" Backup"`
label), so the claimed no-duplicate-url invariant fails for that adapter. -/
theorem nineX_parseDownloadLinks_duplicate_url :
    parseDownloadLinks9x dup9xDivs
      = [{ label := "480p Links(700MB)", url := "https://h.example/file" },
         { label := "480p Links(700MB) Backup", url := "https://h.example/file" }]
    ∧ ¬ ((parseDownloadLinks9x dup9xDivs).map (fun l => l.url)).Nodup := by
  constructor
  · decide
  · decide

theorem mem_insertByRank {x z : DownloadLink} {l : List DownloadLink}
    (h : z ∈ insertByRank x l) : z = x ∨ z ∈ l := by
  have hperm := insertByRank_perm x l
  rcases List.mem_cons.mp (hperm.mem_iff.mp h) with h2 | h2
  · exact Or.inl h2
  · exact Or.inr h2

theorem insertByRank_sorted (x : DownloadLink) :
    ∀ l : List DownloadLink, l.Pairwise (fun a b => linkRank a ≤ linkRank b) →
      (insertByRank x l).Pairwise (fun a b => linkRank a ≤ linkRank b) := by
  intro l
  induction l with
  | nil => intro _; exact List.pairwise_singleton _ x
  | cons y ys ih =>
    intro hl
    rcases List.pairwise_cons.mp hl with ⟨hy, hys⟩
    simp only [insertByRank]
    split
    · next hxy =>
      refine List.pairwise_cons.mpr ⟨?_, hl⟩
      intro b hb
      rcases List.mem_cons.mp hb with rfl | hb2
      · exact hxy
      · exact le_trans hxy (hy b hb2)
    · next hxy =>
      refine List.pairwise_cons.mpr ⟨?_, ih hys⟩
      intro b hb
      rcases mem_insertByRank hb with rfl | hb2
      · omega
      · exact hy b hb2

theorem sortLinksByQuality_sorted :
    ∀ l : List DownloadLink,
      (sortLinksByQuality l).Pairwise (fun a b => linkRank a ≤ linkRank b) := by
  intro l
  induction l with
  | nil => exact List.Pairwise.nil
  | cons x xs ih =>
    simp only [sortLinksByQuality]
    exact insertByRank_sorted x (sortLinksByQuality xs) ih

theorem insertByRank_filter_rank (x : DownloadLink) (k : Nat) :
    ∀ l : List DownloadLink,
      (insertByRank x l).filter (fun y => linkRank y == k)
        = if linkRank x = k then x :: l.filter (fun y => linkRank y == k)
          else l.filter (fun y => linkRank y == k) := by
  intro l
  induction l with
  | nil =>
    simp only [insertByRank, List.filter_cons, List.filter_nil]
    by_cases hx : linkRank x = k
    · simp [hx]
    · simp [hx]
  | cons y ys ih =>
    simp only [insertByRank]
    split
    · next hxy =>
      by_cases hx : linkRank x = k
      · simp only [List.filter_cons, hx, beq_self_eq_true, if_pos, hx]
      · have hxb : (linkRank x == k) = false := by simp [hx]
        simp [List.filter_cons, hxb, hx]
    · next hxy =>
      have hyx : linkRank y < linkRank x := by omega
      by_cases hx : linkRank x = k
      · have hyk : (linkRank y == k) = false := by
          have h5 : linkRank y ≠ k := by omega
          simp [h5]
        simp [List.filter_cons, hyk, ih, hx]
      · simp [List.filter_cons, ih, hx]

theorem sortLinksByQuality_filter_rank (k : Nat) :
    ∀ l : List DownloadLink,
      (sortLinksByQuality l).filter (fun y => linkRank y == k)
        = l.filter (fun y => linkRank y == k) := by
  intro l
  induction l with
  | nil => rfl
  | cons x xs ih =>
    simp only [sortLinksByQuality, insertByRank_filter_rank, ih, List.filter_cons]
    by_cases hx : linkRank x = k
    · simp [hx]
    · simp [hx]

/-- C8, amended.  The SkyBap adapter's final download-link list is sorted by
the fixed quality-priority order (4K > 2160p > … > 360p, read off each
link's label; links with no known token rank past the end), and the links
whose label matches no known quality token keep their original relative
order from the unsorted collection.  (The 9xmovie adapter's
`parseDownloadLinks` never sorts — see the counterexample.) -/
theorem skybap_extractDownloadLinks_sorted (vurl : String → Bool)
    (primary : List Anchor) (fallbacks : List (List Anchor)) :
    (extractDownloadLinks vurl primary fallbacks).Pairwise
        (fun a b => linkRank a ≤ linkRank b)
    ∧ (extractDownloadLinks vurl primary fallbacks).filter
        (fun l => linkRank l == linkQualityOrder.length)
      = (collectDownloadLinks vurl primary fallbacks).filter
        (fun l => linkRank l == linkQualityOrder.length) := by
  constructor
  · exact sortLinksByQuality_sorted (collectDownloadLinks vurl primary fallbacks)
  · exact sortLinksByQuality_filter_rank linkQualityOrder.length
      (collectDownloadLinks vurl primary fallbacks)

/-- A concrete 9xmovie download section whose pairs appear in 480p-then-1080p
document order. -/
def unsorted9xDivs : List TCenterDiv :=
  [{ text := "480p Links", dwnHref := none, dwnText := "" },
   { text := "x", dwnHref := some "https://h.example/a480", dwnText := "Download" },
   { text := "1080p Links", dwnHref := none, dwnText := "" },
   { text := "x", dwnHref := some "https://h.example/b1080", dwnText := "Download" }]

/-- C8, counterexample.  The 9xmovie adapter's `parseDownloadLinks` returns
links in document order without any quality sort: a 480p link stays ahead of
a 1080p link, violating the claimed fixed quality-priority ordering. -/
theorem nineX_parseDownloadLinks_not_sorted :
    parseDownloadLinks9x unsorted9xDivs
      = [{ label := "480p Links", url := "https://h.example/a480" },
         { label := "1080p Links", url := "https://h.example/b1080" }]
    ∧ ¬ (parseDownloadLinks9x unsorted9xDivs).Pairwise
        (fun a b => linkRank a ≤ linkRank b) := by
  constructor
  · decide
  · decide

/-! ## Route-validation theorems -/

/-- C6, counterexample.  For a 1-character search on the movies route the
request IS rejected with `VALIDATION_ERROR` (HTTP 400), but only after the
handler's first action — `await getskyBapUrl()`, a network fetch of
`https://skybap.com` — has already run: the fetch trace at rejection is not
empty. -/
theorem movies_route_prefetch_counterexample :
    moviesRouteGET (some "a") (.ok "<html></html>") (fun _ => none)
        (fun _ => (.ok [], []))
      = (.errorEnvelope 400 "VALIDATION_ERROR", ["https://skybap.com"])
    ∧ ["https://skybap.com"] ≠ ([] : List String) := by
  exact ⟨rfl, by decide⟩

/-- C6, amended.  A 1-character search query is rejected with
`VALIDATION_ERROR` (HTTP 400) by both handlers before any scraping work; the
search route performs no network fetch at all before the rejection, while
the movies route has already fetched `https://skybap.com` (to resolve the
SkyBap base URL) — and nothing else — before rejecting. -/
theorem one_char_query_validation (q : String) (hq : q.length = 1) :
    (∀ pipeline : String → (Except JsError (List Movie)) × List String,
        searchRouteGET (some q) pipeline
          = (.errorEnvelope 400 "VALIDATION_ERROR", []))
    ∧ (∀ (html : String) (badgeHref : String → Option String)
        (pipeline : String → (Except JsError (List Movie)) × List String),
        moviesRouteGET (some q) (.ok html) badgeHref pipeline
          = (.errorEnvelope 400 "VALIDATION_ERROR", ["https://skybap.com"])) := by
  have hne : q ≠ "" := by
    intro h
    rw [h] at hq
    simp at hq
  have htr : (q != "") = true := by simp [hne]
  constructor
  · intro pipeline
    simp [searchRouteGET, htr, hq, createErrorResponse]
  · intro html badgeHref pipeline
    simp [moviesRouteGET, getskyBapUrl, htr, hq, createErrorResponse]

/-- Concrete instantiation of the amended C6 at query `"a"`. -/
theorem one_char_query_validation_witness :
    searchRouteGET (some "a") (fun _ => (.ok [], []))
      = (.errorEnvelope 400 "VALIDATION_ERROR", [])
    ∧ moviesRouteGET (some "a") (.ok "<html></html>") (fun _ => none)
        (fun _ => (.ok [], []))
      = (.errorEnvelope 400 "VALIDATION_ERROR", ["https://skybap.com"]) := by
  constructor
  · exact (one_char_query_validation "a" rfl).1 (fun _ => (.ok [], []))
  · exact (one_char_query_validation "a" rfl).2 "<html></html>" (fun _ => none)
      (fun _ => (.ok [], []))
